import Mathlib

set_option maxRecDepth 8000

/-!
Shallow embedding of the Lumina sales-agent backend (Flask + Pinecone demo).

Strings are modelled as `List Char`; Python exceptions become `Except`;
the external services (Pinecone index, Azure OpenAI, sqlite) are modelled
as explicit state or oracle parameters.  Each definition mirrors one
function of `backend/vector_store.py`, `backend/ingestion.py` or
`backend/app.py`.
-/

abbrev Str := List Char

/-- Python `str` whitespace characters (the default set stripped by `str.strip`,
ASCII range). -/
def pyWS (c : Char) : Bool :=
  c == ' ' || c == '\t' || c == '\n' || c == '\r' || c == '\x0b' || c == '\x0c'

/-- Python `str.strip()`: drop whitespace from both ends. -/
def pyStrip (xs : Str) : Str :=
  ((xs.dropWhile pyWS).reverse.dropWhile pyWS).reverse

/-- Does `sep` occur at the head of the second argument? -/
def startsWith : Str → Str → Bool
  | [], _ => true
  | _ :: _, [] => false
  | s :: ss, x :: xs => s == x && startsWith ss xs

/-- Leftmost occurrence of `sep`: the parts strictly before and strictly after it. -/
def findSub (sep : Str) : Str → Option (Str × Str)
  | [] => none
  | x :: xs =>
    if startsWith sep (x :: xs) then some ([], (x :: xs).drop sep.length)
    else
      match findSub sep xs with
      | none => none
      | some (pre, post) => some (x :: pre, post)

/-- Python `text.split(sep)` (non-overlapping, leftmost first), with fuel;
`fuel = text.length` always suffices since a non-empty separator consumes
at least one character per piece. -/
def pySplitF (sep : Str) : Nat → Str → List Str
  | 0, xs => [xs]
  | fuel + 1, xs =>
    match findSub sep xs with
    | none => [xs]
    | some (pre, post) => pre :: pySplitF sep fuel post

/-- Python `text.split(sep)` for a non-empty separator. -/
def pySplit (sep xs : Str) : List Str := pySplitF sep xs.length xs

/-- Python `text.split(c)` for a one-character separator. -/
def charSplit (c : Char) : Str → List Str
  | [] => [[]]
  | x :: xs =>
    if x == c then [] :: charSplit c xs
    else
      match charSplit c xs with
      | [] => [[x]]
      | h :: t => (x :: h) :: t

/-- Join pieces back with a separator (left inverse of one split pass). -/
def joinSep (sep : Str) : List Str → Str
  | [] => []
  | [x] => x
  | x :: y :: rest => x ++ sep ++ joinSep sep (y :: rest)

/-! ## `DataIngestion.recursive_chunk_text` (backend/ingestion.py, lines 135-185) -/

/-- Python `range(0, n, step)` for a positive step. -/
def rangeStep (n step : Nat) : List Nat :=
  (List.range ((n + step - 1) / step)).map (· * step)

/-- The character-boundary hard split
`[text[i:i+chunk_size] for i in range(0, len(text), chunk_size - overlap)]`.
Python `range` raises on a zero step and yields nothing for a negative one. -/
def hardSplit (chunk_size overlap : Nat) (text : Str) : Except String (List Str) :=
  if chunk_size = overlap then .error "range() arg 3 must not be zero"
  else if chunk_size < overlap then .ok []
  else .ok ((rangeStep text.length (chunk_size - overlap)).map
    (fun i => (text.drop i).take chunk_size))

/-- The greedy accumulation loop of `split_text`: pieces are re-joined into a
running buffer (re-adding the separator except for the newline separators),
which is flushed (stripped) whenever the next piece would overflow. -/
def greedyLoop (chunk_size : Nat) (sep : Str) : List Str → Str → List Str
  | [], current => if current = [] then [] else [pyStrip current]
  | s :: rest, current =>
    let next_piece := if sep = ['\n', '\n'] ∨ sep = ['\n'] then s else s ++ sep
    if chunk_size < current.length + next_piece.length then
      (if current = [] then [] else [pyStrip current]) ++
        greedyLoop chunk_size sep rest next_piece
    else greedyLoop chunk_size sep rest (current ++ next_piece)

/-- The validation loop of `split_text`: chunks still exceeding `chunk_size`
are re-split by `f` (the recursive call at the next separator level); a raised
exception propagates. -/
def validate (chunk_size : Nat) (f : Str → Except String (List Str)) :
    List Str → Except String (List Str)
  | [] => .ok []
  | c :: rest =>
    match (if chunk_size < c.length then f c else .ok [c]) with
    | .error e => .error e
    | .ok h =>
      match validate chunk_size f rest with
      | .error e => .error e
      | .ok t => .ok (h ++ t)

/-- `DataIngestion.recursive_chunk_text.split_text`.  A short text is returned
whole; with no separators left the text is hard-split by characters; otherwise
the text is split by the first separator, greedily re-accumulated, and
oversized chunks recurse with the remaining separators.  Python's
`text.split("")` raises `ValueError: empty separator`, modelled as `.error`. -/
def split_text (chunk_size overlap : Nat) : List Str → Str → Except String (List Str)
  | [], text =>
    if text.length ≤ chunk_size then .ok [text]
    else hardSplit chunk_size overlap text
  | sep :: rest, text =>
    if text.length ≤ chunk_size then .ok [text]
    else if sep = [] then .error "empty separator"
    else validate chunk_size (fun c => split_text chunk_size overlap rest c)
      (greedyLoop chunk_size sep (pySplit sep text) [])

/-- The separator ladder of `recursive_chunk_text`. -/
def separators : List Str := [['\n', '\n'], ['\n'], ['.', ' '], [' '], []]

/-- `DataIngestion.recursive_chunk_text` (defaults `chunk_size=500`, `overlap=50`). -/
def recursive_chunk_text (text : Str) (chunk_size overlap : Nat) :
    Except String (List Str) :=
  split_text chunk_size overlap separators text

/-! ## VectorStore (backend/vector_store.py) -/

/-- A Pinecone metadata value: the demo stores strings and one integer
(`chunk_index`). -/
inductive MetaVal where
  | s (v : Str)
  | n (v : Nat)
deriving DecidableEq

/-- Pinecone metadata: an insertion-ordered key/value map (Python `dict`). -/
abbrev Metadata := List (Str × MetaVal)

/-- Lookup of a metadata key (first binding wins, as in a Python `dict`
without duplicate keys). -/
def metaLookup (k : Str) : Metadata → Option MetaVal
  | [] => none
  | (k', v) :: rest => if k' = k then some v else metaLookup k rest

def clientIdKey : Str := "client_id".data

/-- A vector record as sent to / stored in the Pinecone index:
id, dense values, optional sparse values, metadata.  `V` is the dense
vector type and `S` the sparse vector type (opaque to the store). -/
structure PineVec (V S : Type) where
  id : Str
  values : V
  sparse_values : Option S
  metadata : Metadata
deriving DecidableEq

namespace VectorStore

/-- The metadata rewrite in `VectorStore.upsert`:
`if "client_id" not in metadata: metadata["client_id"] = client_id`
(a fresh key is appended at the end, Python dict insertion order). -/
def addClientId (client_id : Str) (md : Metadata) : Metadata :=
  if (metaLookup clientIdKey md).isSome then md
  else md ++ [(clientIdKey, .s client_id)]

/-- The `formatted_vectors` list built by `VectorStore.upsert` before the
index write. -/
def upsertFormatted (client_id : Str) (vectors : List (PineVec V S)) :
    List (PineVec V S) :=
  vectors.map (fun v => { v with metadata := addClientId client_id v.metadata })

/-- `VectorStore.upsert`: returns the vectors written to the index and the
reported count (`len(formatted_vectors)`). -/
def upsert (client_id : Str) (vectors : List (PineVec V S)) :
    List (PineVec V S) × Nat :=
  (upsertFormatted client_id vectors, (upsertFormatted client_id vectors).length)

/-- The query arguments `VectorStore.search` passes to `index.query`; the
filter `\x7b"client_id": \x7b"$eq": client_id\x7d\x7d` is modelled as the
(field, value) pair of the server-side equality filter. -/
structure QueryArgs (V S : Type) where
  vector : V
  top_k : Nat
  include_metadata : Bool
  filter : Str × Str
  sparse_vector : Option S

/-- The `query_args` built by `VectorStore.search` (the sparse vector is
attached only when provided). -/
def search_args (query_vector : V) (sparse_vector : Option S) (top_k : Nat)
    (client_id : Str) : QueryArgs V S :=
  { vector := query_vector
    top_k := top_k
    include_metadata := true
    filter := (clientIdKey, client_id)
    sparse_vector := sparse_vector }

/-- Insert into a list sorted by descending score. -/
def insertDesc (score : PineVec V S → Int) (x : PineVec V S) :
    List (PineVec V S) → List (PineVec V S)
  | [] => [x]
  | y :: ys => if score y < score x then x :: y :: ys else y :: insertDesc score x ys

/-- Sort by descending score (the index's relevance ranking, with the
scoring function abstracted as a parameter). -/
def sortDesc (score : PineVec V S → Int) : List (PineVec V S) → List (PineVec V S)
  | [] => []
  | x :: xs => insertDesc score x (sortDesc score xs)

/-- Model of the Pinecone server answering `index.query(**query_args)`:
only records whose metadata satisfies the equality filter are candidates,
ranked by score, truncated to `top_k`. -/
def pineconeQuery (index : List (PineVec V S)) (score : PineVec V S → Int)
    (args : QueryArgs V S) : List (PineVec V S) :=
  (sortDesc score (index.filter
    (fun v => decide (metaLookup args.filter.1 v.metadata = some (.s args.filter.2))))).take
    args.top_k

/-- One result row of `VectorStore.search`. -/
structure SearchMatch where
  id : Str
  score : Int
  metadata : Metadata
deriving DecidableEq

/-- `VectorStore.search`: builds `query_args` (always including the
`client_id` equality filter), queries the index, and projects each match to
`id`/`score`/`metadata`. -/
def search (index : List (PineVec V S)) (score : PineVec V S → Int)
    (query_vector : V) (sparse_vector : Option S) (top_k : Nat)
    (client_id : Str) : List SearchMatch :=
  (pineconeQuery index score
    (search_args query_vector sparse_vector top_k client_id)).map
    (fun m => { id := m.id, score := score m, metadata := m.metadata })

end VectorStore

/-! ## DataIngestion.ingest_url (backend/ingestion.py, lines 228-282) -/

/-- The external collaborators of one `ingest_url` run: the fetch result,
the text extractor, the dense-embedding batch call and the per-chunk sparse
encoder.  `V` is the dense vector type, `S` the sparse vector type. -/
structure IngestEnv (V S : Type) where
  fetched : Option Str
  extract : Str → Str
  embed : List Str → List V
  sparse : Str → S

/-- The observable outcome of `ingest_url`: the result dict fields plus the
vector batch handed to `VectorStore.upsert` (empty when nothing is stored). -/
structure IngestResult (V S : Type) where
  success : Bool
  message : Str
  upserted : List (PineVec V S)
  chunks : Option Nat
  stored : Option Nat
deriving DecidableEq

/-- `f"\x7burl\x7d_\x7bi\x7d"`. -/
def chunkId (url : Str) (i : Nat) : Str := url ++ '_' :: (Nat.repr i).data

/-- The metadata dict built for chunk `i` of `url`. -/
def chunkMetadata (client_id url chunk : Str) (i : Nat) : Metadata :=
  [(clientIdKey, .s client_id), ("url".data, .s url),
   ("chunk_index".data, .n i), ("text".data, .s chunk)]

/-- `DataIngestion.ingest_url`: fetch, extract, chunk (defaults
`chunk_size=500`, `overlap=50`), embed, then store.  `zip(chunks, embeddings)`
truncates to the shorter list; a chunker exception is caught by the outer
`except` and reported as a failed ingestion. -/
def ingest_url (env : IngestEnv V S) (url client_id : Str) : IngestResult V S :=
  match env.fetched with
  | none => ⟨false, "Unable to fetch content".data, [], none, none⟩
  | some html =>
    let text := env.extract html
    if text = [] then ⟨false, "Unable to extract text".data, [], none, none⟩
    else
      match recursive_chunk_text text 500 50 with
      | .error e => ⟨false, "Data ingestion failed: ".data ++ e.data, [], none, none⟩
      | .ok chunks =>
        let embeddings := env.embed chunks
        if embeddings.isEmpty then
          ⟨false, "Unable to generate embeddings".data, [], none, none⟩
        else
          let vectors_to_store := (List.zip chunks embeddings).enum.map
            (fun p => ({ id := chunkId url p.1
                         values := p.2.2
                         sparse_values := some (env.sparse p.2.1)
                         metadata := chunkMetadata client_id url p.2.1 p.1 } : PineVec V S))
          let count := (VectorStore.upsert client_id vectors_to_store).2
          ⟨true, "Data ingestion successful".data, vectors_to_store,
            some chunks.length, some count⟩

/-! ## extract_email (backend/app.py, lines 210-222)

Model of `re.findall(r'\b[A-Za-z0-9._%+-]+@[A-Za-z0-9.-]+\.[A-Z|a-z]\x7b2,\x7d\b', text)[0]`:
a leftmost scan; at each start position the engine matches a word boundary,
a greedy run of local-part characters, `@`, a greedy (backtracking) run of
domain characters, a literal dot, a greedy (backtracking) run of at least two
top-level characters, and a final word boundary. -/

/-- Regex `\w` (ASCII range). -/
def wordChar (c : Char) : Bool := c.isAlpha || c.isDigit || c == '_'

/-- Class `[A-Za-z0-9._%+-]`. -/
def localChar (c : Char) : Bool :=
  c.isAlpha || c.isDigit || c == '.' || c == '_' || c == '%' || c == '+' || c == '-'

/-- Class `[A-Za-z0-9.-]`. -/
def domChar (c : Char) : Bool := c.isAlpha || c.isDigit || c == '.' || c == '-'

/-- Class `[A-Z|a-z]` (the pattern literally includes the bar). -/
def tldChar (c : Char) : Bool := c.isUpper || c.isLower || c == '|'

/-- Word-ness of an optional character (string edges count as non-word). -/
def optWord : Option Char → Bool
  | none => false
  | some c => wordChar c

/-- `\b`: the two neighbours disagree on word-ness. -/
def boundaryB (p n : Option Char) : Bool := optWord p != optWord n

/-- Backtracking over the `[A-Z|a-z]\x7b2,\x7d\b` suffix: try runs of length
`k, k-1, ..., 2` of top-level characters from `tail` and keep the longest
whose end sits on a word boundary. -/
def tldLoop (stem : Str) (tail : Str) : Nat → Option Str
  | 0 => none
  | k + 1 =>
    if k + 1 < 2 then none
    else if boundaryB ((tail.take (k + 1)).getLast?) ((tail.drop (k + 1)).head?) then
      some (stem ++ tail.take (k + 1))
    else tldLoop stem tail k

/-- Backtracking over the `[A-Za-z0-9.-]+\.` part: try domain runs of length
`r, r-1, ..., 1`; each candidate must be followed by a literal dot, after
which the top-level loop runs. -/
def domLoop (loc : Str) (rest : Str) : Nat → Option Str
  | 0 => none
  | r + 1 =>
    (match rest.drop (r + 1) with
     | '.' :: tail =>
       tldLoop (loc ++ '@' :: rest.take (r + 1) ++ ['.']) tail
         (tail.takeWhile tldChar).length
     | _ => none) <|> domLoop loc rest r

/-- Try a full match of the email pattern at the current position;
`prev` is the character just before it. -/
def tryMatch (prev : Option Char) (s : Str) : Option Str :=
  if boundaryB prev s.head? then
    let loc := s.takeWhile localChar
    if loc = [] then none
    else
      match s.drop loc.length with
      | '@' :: rest => domLoop loc rest ((rest.takeWhile domChar).length)
      | _ => none
  else none

/-- Leftmost-first scan over all start positions. -/
def findFrom (prev : Option Char) : Str → Option Str
  | [] => tryMatch prev []
  | c :: rest =>
    match tryMatch prev (c :: rest) with
    | some m => some m
    | none => findFrom (some c) rest

/-- `extract_email`: the first regex match in the text, if any. -/
def extract_email (text : Str) : Option Str := findFrom none text


/-! ## The chat endpoint (backend/app.py, lines 246-487, non-streaming path)

The sqlite tables become explicit state; the embedding, retrieval and
completion services become per-request oracle inputs. -/

/-- `detect_purchase_intent` keyword list (backend/app.py, lines 225-243). -/
def purchase_keywords : List Str :=
  ["price".data, "cost".data, "pricing".data, "how much".data,
   "how to start".data, "how to buy".data, "get started".data,
   "trial".data, "demo".data, "free trial".data,
   "buy".data, "purchase".data, "subscribe".data,
   "plan".data, "package".data, "pricing plan".data]

/-- Substring test (`keyword in message_lower`). -/
def containsSub (needle hay : Str) : Bool := (findSub needle hay).isSome || needle = []

/-- `detect_purchase_intent` (case handling elided: the caller lower-cases). -/
def detect_purchase_intent (message_lower : Str) : Bool :=
  purchase_keywords.any (fun k => containsSub k message_lower)

/-- One row of the `sessions` table. -/
structure SessionRec where
  client_id : Str
  email_provided : Bool
  turn_count : Nat
deriving DecidableEq

/-- One row of the `leads` table (fields touched by the chat trigger). -/
structure LeadRec where
  name : Str
  email : Str
  status : Str
  notes : Str
deriving DecidableEq

/-- One row of the `messages` table. -/
structure MessageRec where
  session_id : Str
  role : Str
  content : Str
deriving DecidableEq

/-- The persistent state the chat handler mutates. -/
structure AppState where
  sessions : List (Str × SessionRec)
  leads : List LeadRec
  messages : List MessageRec
deriving DecidableEq

/-- `SELECT * FROM sessions WHERE session_id = ?` (primary key: first match). -/
def getSession? (sessions : List (Str × SessionRec)) (sid : Str) : Option SessionRec :=
  match sessions with
  | [] => none
  | (k, v) :: rest => if k = sid then some v else getSession? rest sid

/-- `UPDATE sessions SET ... WHERE session_id = ?` (rewrites every row whose
key matches). -/
def setSession (sid : Str) (f : SessionRec → SessionRec) :
    List (Str × SessionRec) → List (Str × SessionRec)
  | [] => []
  | (k, v) :: rest =>
    (if k = sid then (k, f v) else (k, v)) :: setSession sid f rest

/-- The JSON body of a chat request. -/
structure ChatRequest where
  message : Str
  session_id : Str
  client_id : Str
deriving DecidableEq

/-- Per-request results of the external services: dense embedding batch for
`[message]` (empty on failure), hybrid-search matches, and the completion
call (`.error` when the OpenAI call raises). -/
structure ChatEnv where
  embeddings : List (List Int)
  searchResults : List VectorStore.SearchMatch
  completion : Except Str Str

/-- HTTP outcome of a chat request. -/
inductive ChatOutcome where
  | badRequest (message : Str)
  | serverError (message : Str)
  | ok (response : Str) (session_id : Str) (turn_count : Nat) (email_provided : Bool)
deriving DecidableEq

/-- Outcome plus the email-status instruction block placed in the system
prompt (present exactly when a completion was attempted). -/
structure ChatResult where
  outcome : ChatOutcome
  sentInstruction : Option Str
deriving DecidableEq

def askInstruction : Str :=
  ("The user has NOT provided their email address yet. If the user shows strong "
    ++ "interest or the conversation reaches a natural point to follow up, please "
    ++ "politely ask for their email address to send more information or schedule "
    ++ "a demo.").data

def providedInstruction : Str :=
  "The user has ALREADY provided their email address. Do not ask for it again.".data

/-- The `email_status_instruction` chosen at backend/app.py lines 366-370
from the (already updated) `session_data["email_provided"]`. -/
def email_status_instruction (provided : Bool) : Str :=
  if provided then providedInstruction else askInstruction

/-- One `- [Source: url] text` context line. -/
def contextLine (m : VectorStore.SearchMatch) : Str :=
  "- [Source: ".data
    ++ (match metaLookup "url".data m.metadata with
        | some (.s v) => v
        | some (.n v) => (Nat.repr v).data
        | none => "unknown".data)
    ++ "] ".data
    ++ (match metaLookup "text".data m.metadata with
        | some (.s v) => v
        | some (.n v) => (Nat.repr v).data
        | none => [])

/-- `context_text`: joined context lines, or the placeholder when the
search returned nothing. -/
def contextText (results : List VectorStore.SearchMatch) : Str :=
  if results.isEmpty then "No relevant context available".data
  else joinSep ['\n'] (results.map contextLine)

def sysTemplateA : Str :=
  ("You are a B2B sales expert. Your responses must be concise, professional, "
    ++ "and persuasive.\n\nPlease answer user questions based on the provided "
    ++ "context information. \nIf context information is insufficient, please "
    ++ "answer based on your professional knowledge but mention you are not "
    ++ "100% sure about specific details not in context.\nMaintain a "
    ++ "professional, friendly, and concise tone.\n\n").data

def sysTemplateB : Str := "\n\nContext Information:\n".data

/-- The f-string system prompt with the instruction and context blocks
interpolated. -/
def buildSystemPrompt (instruction context : Str) : Str :=
  sysTemplateA ++ instruction ++ sysTemplateB ++ context

/-- `message.split('@')[0] if '@' in message else "Unknown"`. -/
def leadName (message : Str) : Str :=
  if message.contains '@' then (charSplit '@' message).headD []
  else "Unknown".data

/-- The `notes` written by the auto-created lead
(`f"Auto-created from chat session, Session ID: \x7bsession_id\x7d"`). -/
def autoNotes (sid : Str) : Str :=
  "Auto-created from chat session, Session ID: ".data ++ sid

/-- Steps 1-5 of the `chat` handler (backend/app.py lines 279-329), the part
committed before any external call: look up or create the session row,
commit the turn-count increment, append the user message, and on a first
observed email create the lead and set `email_provided`.  Returns the
committed state, the updated `session_data["email_provided"]`, and
`new_turn_count`. -/
def chatCommit (st : AppState) (req : ChatRequest) : AppState × Bool × Nat :=
  let sess0 := getSession? st.sessions req.session_id
  let st1 : AppState :=
    match sess0 with
    | none =>
      { st with sessions :=
          st.sessions ++ [(req.session_id, ⟨req.client_id, false, 0⟩)] }
    | some _ => st
  let session_data : Bool × Nat :=
    match sess0 with
    | none => (false, 0)
    | some s => (s.email_provided, s.turn_count)
  let new_turn_count := session_data.2 + 1
  let sessions2 := setSession req.session_id
    (fun s => { s with turn_count := new_turn_count }) st1.sessions
  let st2 := { st1 with sessions := sessions2 }
  let messages3 := st2.messages ++ [⟨req.session_id, "user".data, req.message⟩]
  let st3 := { st2 with messages := messages3 }
  let email := extract_email req.message
  match email with
  | some e =>
    if session_data.1 then (st3, true, new_turn_count)
    else
      let leads4 := st3.leads ++
        [⟨leadName req.message, e, "new".data, autoNotes req.session_id⟩]
      let sessions4 := setSession req.session_id
        (fun s => { s with email_provided := true }) st3.sessions
      ({ st3 with leads := leads4, sessions := sessions4 }, true, new_turn_count)
  | none => (st3, session_data.1, new_turn_count)

/-- The `chat` handler (non-streaming).  Mirrors backend/app.py lines
246-487: reject an empty message; run the committed phase (`chatCommit`);
abort if the embedding batch is empty (the commits stay); build the
instruction block from the updated flag; then either fail on the completion
error (again keeping the commits) or append the assistant message and
answer. -/
def chat (st : AppState) (req : ChatRequest) (env : ChatEnv) :
    AppState × ChatResult :=
  if req.message = [] then
    (st, ⟨.badRequest "Message content cannot be empty".data, none⟩)
  else
    let committed := chatCommit st req
    let st4 := committed.1
    let provided := committed.2.1
    let new_turn_count := committed.2.2
    if env.embeddings.isEmpty then
      (st4, ⟨.serverError "Unable to generate message embedding vector".data, none⟩)
    else
      let instruction := email_status_instruction provided
      match env.completion with
      | .error e =>
        (st4, ⟨.serverError ("Error processing request: ".data ++ e),
          some instruction⟩)
      | .ok resp =>
        ({ st4 with messages :=
            st4.messages ++ [⟨req.session_id, "assistant".data, resp⟩] },
          ⟨.ok resp req.session_id new_turn_count provided, some instruction⟩)

/-- Run a sequence of chat requests, threading the state. -/
def runChat (st : AppState) : List (ChatRequest × ChatEnv) → AppState
  | [] => st
  | (r, e) :: rest => runChat (chat st r e).1 rest

/-- Run a sequence of chat requests, collecting each request's result. -/
def chatOutputs (st : AppState) : List (ChatRequest × ChatEnv) →
    List (ChatRequest × ChatResult)
  | [] => []
  | (r, e) :: rest => (r, (chat st r e).2) :: chatOutputs (chat st r e).1 rest

/-- Whether the session is in the EMAIL_CAPTURED state. -/
def capturedIn (st : AppState) (sid : Str) : Bool :=
  match getSession? st.sessions sid with
  | some s => s.email_provided
  | none => false

/-- The stored turn count of a session (0 when absent). -/
def turnOf (st : AppState) (sid : Str) : Nat :=
  match getSession? st.sessions sid with
  | some s => s.turn_count
  | none => 0

/-- Number of leads auto-created from a given chat session (identified by
the notes text the trigger writes). -/
def autoLeadCount (st : AppState) (sid : Str) : Nat :=
  st.leads.countP (fun l => l.notes = autoNotes sid)

/-! ## Chunker lemmas: content preservation and the hard-split bound -/

/-- The characters the chunker may drop, re-insert or move: Python
whitespace (separators `"\n\n"`, `"\n"`, `" "` and `strip`) and the period
(separator `". "`).  All other characters are preserved exactly. -/
def keepChar (c : Char) : Bool := !(pyWS c) && !(c == '.')

theorem startsWith_eq {sep ys : Str} (h : startsWith sep ys = true) :
    ys = sep ++ ys.drop sep.length := by
  induction sep generalizing ys with
  | nil => simp
  | cons s ss ih =>
    cases ys with
    | nil => simp [startsWith] at h
    | cons y ys =>
      simp only [startsWith, Bool.and_eq_true, beq_iff_eq] at h
      obtain ⟨rfl, h2⟩ := h
      simpa using ih h2

theorem findSub_eq {sep xs pre post : Str}
    (h : findSub sep xs = some (pre, post)) : xs = pre ++ sep ++ post := by
  induction xs generalizing pre post with
  | nil => simp [findSub] at h
  | cons x xs ih =>
    rw [findSub] at h
    by_cases hs : startsWith sep (x :: xs) = true
    · rw [if_pos hs] at h
      obtain ⟨rfl, rfl⟩ := Prod.mk.injEq .. ▸ (Option.some.injEq .. ▸ h :)
      simpa using startsWith_eq hs
    · rw [if_neg hs] at h
      cases hf : findSub sep xs with
      | none => rw [hf] at h; exact absurd h (by simp)
      | some pq =>
        obtain ⟨p, q⟩ := pq
        rw [hf] at h
        obtain ⟨rfl, rfl⟩ := Prod.mk.injEq .. ▸ (Option.some.injEq .. ▸ h :)
        simpa using ih hf

theorem pySplitF_ne_nil (sep : Str) (fuel : Nat) (xs : Str) :
    pySplitF sep fuel xs ≠ [] := by
  cases fuel with
  | zero => simp [pySplitF]
  | succ n =>
    rw [pySplitF]
    cases findSub sep xs with
    | none => simp
    | some pq => simp

theorem joinSep_pySplitF (sep : Str) (fuel : Nat) (xs : Str) :
    joinSep sep (pySplitF sep fuel xs) = xs := by
  induction fuel generalizing xs with
  | zero => simp [pySplitF, joinSep]
  | succ n ih =>
    rw [pySplitF]
    cases hf : findSub sep xs with
    | none => simp [joinSep]
    | some pq =>
      obtain ⟨pre, post⟩ := pq
      show joinSep sep (pre :: pySplitF sep n post) = xs
      cases hL : pySplitF sep n post with
      | nil => exact absurd hL (pySplitF_ne_nil sep n post)
      | cons a l =>
        have hjoin : joinSep sep (pre :: a :: l) = pre ++ sep ++ joinSep sep (a :: l) := rfl
        rw [hjoin, ← hL, ih post, ← findSub_eq hf]

theorem joinSep_pySplit (sep xs : Str) : joinSep sep (pySplit sep xs) = xs :=
  joinSep_pySplitF sep xs.length xs

theorem filter_dropWhile {p q : Char → Bool} (hpq : ∀ c, p c = true → q c = false)
    (xs : Str) : (xs.dropWhile p).filter q = xs.filter q := by
  induction xs with
  | nil => rfl
  | cons x xs ih =>
    by_cases hp : p x = true
    · rw [List.dropWhile_cons_of_pos hp, ih, List.filter_cons_of_neg (by simp [hpq x hp])]
    · rw [List.dropWhile_cons_of_neg hp]

theorem filter_pyStrip (xs : Str) : (pyStrip xs).filter keepChar = xs.filter keepChar := by
  have hws : ∀ c, pyWS c = true → keepChar c = false := by
    intro c hc; simp [keepChar, hc]
  unfold pyStrip
  rw [List.filter_reverse, filter_dropWhile hws, List.filter_reverse,
    List.reverse_reverse, filter_dropWhile hws]

theorem filter_joinSep {sep : Str} (hsep : sep.filter keepChar = [])
    (l : List Str) : (joinSep sep l).filter keepChar = l.flatten.filter keepChar := by
  induction l with
  | nil => rfl
  | cons x l ih =>
    cases l with
    | nil => simp [joinSep]
    | cons y r =>
      have : joinSep sep (x :: y :: r) = x ++ sep ++ joinSep sep (y :: r) := rfl
      rw [this]
      simp only [List.filter_append, hsep, List.flatten_cons, ih]
      simp

theorem filter_flatten_pySplit {sep : Str} (hsep : sep.filter keepChar = [])
    (xs : Str) : (pySplit sep xs).flatten.filter keepChar = xs.filter keepChar := by
  rw [← filter_joinSep hsep, joinSep_pySplit]

theorem filter_flatten_greedyLoop {sep : Str} (chunk_size : Nat)
    (hsep : sep.filter keepChar = []) (splits : List Str) (current : Str) :
    (greedyLoop chunk_size sep splits current).flatten.filter keepChar
      = (current ++ splits.flatten).filter keepChar := by
  induction splits generalizing current with
  | nil =>
    by_cases hc : current = []
    · simp [greedyLoop, hc]
    · simp [greedyLoop, hc, filter_pyStrip]
  | cons s rest ih =>
    simp only [greedyLoop]
    have hnp : (if sep = ['\n', '\n'] ∨ sep = ['\n'] then s else s ++ sep).filter keepChar
        = s.filter keepChar := by
      by_cases h : sep = ['\n', '\n'] ∨ sep = ['\n']
      · rw [if_pos h]
      · rw [if_neg h, List.filter_append, hsep, List.append_nil]
    by_cases hover : chunk_size <
        current.length + (if sep = ['\n', '\n'] ∨ sep = ['\n'] then s else s ++ sep).length
    · rw [if_pos hover, List.flatten_append, List.filter_append, ih]
      by_cases hc : current = []
      · rw [if_pos hc, hc]
        simp [List.filter_append, hnp]
      · rw [if_neg hc]
        simp [List.filter_append, hnp, filter_pyStrip]
    · rw [if_neg hover, ih]
      simp [List.filter_append, hnp]

theorem validate_ok_filter {chunk_size : Nat} {f : Str → Except String (List Str)}
    {chunks out : List Str} (hok : validate chunk_size f chunks = .ok out)
    (hf : ∀ c ∈ chunks, chunk_size < c.length → ∀ o, f c = .ok o →
      o.flatten.filter keepChar = c.filter keepChar) :
    out.flatten.filter keepChar = chunks.flatten.filter keepChar := by
  induction chunks generalizing out with
  | nil =>
    rw [validate] at hok
    obtain rfl := (Except.ok.injEq .. ▸ hok :)
    rfl
  | cons c rest ih =>
    rw [validate] at hok
    by_cases hlen : chunk_size < c.length
    · rw [if_pos hlen] at hok
      cases hfc : f c with
      | error e => rw [hfc] at hok; exact absurd hok (by simp)
      | ok h =>
        rw [hfc] at hok
        cases hrest : validate chunk_size f rest with
        | error e => rw [hrest] at hok; exact absurd hok (by simp)
        | ok t =>
          rw [hrest] at hok
          obtain rfl := (Except.ok.injEq .. ▸ hok :)
          have h1 := hf c (by simp) hlen h hfc
          have h2 := ih hrest (fun c' hc' => hf c' (by simp [hc']))
          simp only [List.flatten_append, List.flatten_cons, List.filter_append, h1, h2]
    · rw [if_neg hlen] at hok
      cases hrest : validate chunk_size f rest with
      | error e => rw [hrest] at hok; exact absurd hok (by simp)
      | ok t =>
        rw [hrest] at hok
        obtain rfl := (Except.ok.injEq .. ▸ hok :)
        have h2 := ih hrest (fun c' hc' => hf c' (by simp [hc']))
        simp only [List.singleton_append, List.flatten_cons, List.filter_append, h2]

theorem split_text_ok_filter {chunk_size overlap : Nat} :
    ∀ seps : List Str, (∀ s ∈ seps, s.filter keepChar = []) →
      seps.getLast? = some [] →
      ∀ text chunks, split_text chunk_size overlap seps text = .ok chunks →
      chunks.flatten.filter keepChar = text.filter keepChar := by
  intro seps
  induction seps with
  | nil =>
    intro _ hlast
    simp at hlast
  | cons sep rest ih =>
    intro hdrop hlast text chunks hok
    rw [split_text] at hok
    by_cases hshort : text.length ≤ chunk_size
    · rw [if_pos hshort] at hok
      obtain rfl := (Except.ok.injEq .. ▸ hok :)
      simp
    · rw [if_neg hshort] at hok
      by_cases hsep : sep = []
      · rw [if_pos hsep] at hok
        exact absurd hok (by simp)
      · rw [if_neg hsep] at hok
        cases rest with
        | nil =>
          simp at hlast
          exact absurd hlast hsep
        | cons r rs =>
          have hlast' : (r :: rs).getLast? = some [] := by
            rw [← List.getLast?_cons_cons (a := sep)]
            exact hlast
          have hdrop' : ∀ s ∈ r :: rs, s.filter keepChar = [] :=
            fun s hs => hdrop s (by simp [hs])
          have hsepF : sep.filter keepChar = [] := hdrop sep (by simp)
          have hf : ∀ c ∈ greedyLoop chunk_size sep (pySplit sep text) [],
              chunk_size < c.length → ∀ o,
              split_text chunk_size overlap (r :: rs) c = .ok o →
              o.flatten.filter keepChar = c.filter keepChar :=
            fun c _ _ o hoc => ih hdrop' hlast' c o hoc
          have hmain := validate_ok_filter hok hf
          rw [hmain, filter_flatten_greedyLoop chunk_size hsepF, List.nil_append,
            filter_flatten_pySplit hsepF]

/-- C2: the claim as stated is refuted by `recursive_chunk_text("aaa", 2)`:
recursion exhausts the non-empty separators, reaches the `""` separator and
raises `ValueError: empty separator` — no chunk list is returned at all, so
its concatenation cannot reproduce the input. -/
theorem C2_counterexample_empty_separator_abort :
    recursive_chunk_text "aaa".data 2 50 = Except.error "empty separator"
      ∧ (recursive_chunk_text "aaa".data 2 50).toOption = none := by
  exact ⟨by rfl, by rfl⟩

/-- C2 (amended): whenever `recursive_chunk_text` does return a chunk list
(instead of raising on the empty-string separator), concatenating the chunks
in output order preserves exactly the input's characters other than
whitespace and the period (the separator alphabet plus stripped whitespace),
in their original order. -/
theorem C2_chunk_concat_preserves_content (text : Str) (chunk_size overlap : Nat)
    (chunks : List Str) (h : recursive_chunk_text text chunk_size overlap = .ok chunks) :
    chunks.flatten.filter keepChar = text.filter keepChar :=
  split_text_ok_filter separators (by decide) (by decide) text chunks h

/-- Witness for C2 (amended) at a concrete input that splits into two chunks. -/
theorem C2_chunk_concat_preserves_content_witness :
    recursive_chunk_text "ab\n\ncd".data 3 50 = .ok ["ab".data, "cd".data]
      ∧ (["ab".data, "cd".data] : List Str).flatten.filter keepChar
          = "ab\n\ncd".data.filter keepChar :=
  ⟨by rfl, C2_chunk_concat_preserves_content "ab\n\ncd".data 3 50
    ["ab".data, "cd".data] (by rfl)⟩

/-- C3: every chunk produced at the finest recursion level (the
character-boundary hard split, the branch taken when the separator list is
exhausted) has length at most `chunk_size`. -/
theorem C3_char_level_chunks_bounded (chunk_size overlap : Nat) (text : Str)
    (chunks : List Str) (h : split_text chunk_size overlap [] text = .ok chunks) :
    ∀ c ∈ chunks, c.length ≤ chunk_size := by
  rw [split_text] at h
  by_cases hshort : text.length ≤ chunk_size
  · rw [if_pos hshort] at h
    obtain rfl := (Except.ok.injEq .. ▸ h :)
    intro c hc
    simp at hc
    exact hc ▸ hshort
  · rw [if_neg hshort] at h
    rw [hardSplit] at h
    by_cases heq : chunk_size = overlap
    · rw [if_pos heq] at h
      exact absurd h (by simp)
    · rw [if_neg heq] at h
      by_cases hlt : chunk_size < overlap
      · rw [if_pos hlt] at h
        obtain rfl := (Except.ok.injEq .. ▸ h :)
        intro c hc
        simp at hc
      · rw [if_neg hlt] at h
        obtain rfl := (Except.ok.injEq .. ▸ h :)
        intro c hc
        obtain ⟨i, _, rfl⟩ := List.mem_map.mp hc
        rw [List.length_take]
        exact Nat.min_le_left ..

/-- Witness for C3 at a concrete hard split. -/
theorem C3_char_level_chunks_bounded_witness :
    split_text 2 0 [] "abcd".data = .ok ["ab".data, "cd".data]
      ∧ ∀ c ∈ (["ab".data, "cd".data] : List Str), c.length ≤ 2 :=
  ⟨by rfl, C3_char_level_chunks_bounded 2 0 "abcd".data
    ["ab".data, "cd".data] (by rfl)⟩

/-- C7: at the failing input (501 copies of a letter, default
`chunk_size=500`, `overlap=50`) the recursion never reaches the
character-boundary hard split: the `""` entry of the separator list is hit
first and `text.split("")` raises `ValueError: empty separator`, so the code
aborts instead of hard-splitting by character count. -/
theorem C7_char_floor_unreachable :
    recursive_chunk_text (List.replicate 501 'a') 500 50
      = Except.error "empty separator" := by rfl

/-! ## Vector-store lemmas: tenant isolation and client_id handling -/

theorem mem_insertDesc {V S : Type} {score : PineVec V S → Int} {x a : PineVec V S} :
    ∀ {l : List (PineVec V S)}, a ∈ VectorStore.insertDesc score x l → a = x ∨ a ∈ l := by
  intro l
  induction l with
  | nil => intro h; simp [VectorStore.insertDesc] at h; exact Or.inl h
  | cons y ys ih =>
    intro h
    rw [VectorStore.insertDesc] at h
    by_cases hs : score y < score x
    · rw [if_pos hs] at h
      rcases List.mem_cons.mp h with h1 | h2
      · exact Or.inl h1
      · exact Or.inr h2
    · rw [if_neg hs] at h
      rcases List.mem_cons.mp h with h1 | h2
      · exact Or.inr (h1 ▸ List.mem_cons_self y ys)
      · rcases ih h2 with h3 | h4
        · exact Or.inl h3
        · exact Or.inr (List.mem_cons_of_mem y h4)

theorem mem_sortDesc {V S : Type} {score : PineVec V S → Int} {a : PineVec V S} :
    ∀ {l : List (PineVec V S)}, a ∈ VectorStore.sortDesc score l → a ∈ l := by
  intro l
  induction l with
  | nil => intro h; simp [VectorStore.sortDesc] at h
  | cons y ys ih =>
    intro h
    rw [VectorStore.sortDesc] at h
    rcases mem_insertDesc h with h1 | h2
    · exact h1 ▸ List.mem_cons_self y ys
    · exact List.mem_cons_of_mem y (ih h2)

/-- C1: `VectorStore.search` always issues its query with the server-side
equality filter on `client_id` (for every query vector, optional sparse
vector and `top_k`); consequently, for distinct clients `A ≠ B`, no result
of a search scoped to `A` carries metadata `client_id = B`. -/
theorem C1_search_tenant_isolation {V S : Type} (index : List (PineVec V S))
    (score : PineVec V S → Int) (query_vector : V) (sparse_vector : Option S)
    (top_k : Nat) (A B : Str) (hAB : A ≠ B) :
    (VectorStore.search_args query_vector sparse_vector top_k A).filter = (clientIdKey, A)
      ∧ ∀ m ∈ VectorStore.search index score query_vector sparse_vector top_k A,
          metaLookup clientIdKey m.metadata ≠ some (.s B) := by
  refine ⟨rfl, ?_⟩
  intro m hm hB
  rw [VectorStore.search] at hm
  obtain ⟨v, hv, rfl⟩ := List.mem_map.mp hm
  rw [VectorStore.pineconeQuery] at hv
  have hv2 := mem_sortDesc (List.mem_of_mem_take hv)
  have hv3 := (List.mem_filter.mp hv2).2
  have hA : metaLookup clientIdKey v.metadata = some (.s A) := of_decide_eq_true hv3
  rw [hA] at hB
  exact hAB (by simpa using hB)

/-- Witness for C1: a two-tenant index, queried for client `"A"`. -/
theorem C1_search_tenant_isolation_witness :
    "A".data ≠ "B".data
      ∧ metaLookup clientIdKey
          ({ id := "a0".data, score := 0,
             metadata := [(clientIdKey, MetaVal.s "A".data)] } :
            VectorStore.SearchMatch).metadata ≠ some (MetaVal.s "B".data) := by
  refine ⟨by decide, ?_⟩
  have h := (C1_search_tenant_isolation
    [({ id := "a0".data, values := 0, sparse_values := none,
        metadata := [(clientIdKey, MetaVal.s "A".data)] } : PineVec Nat Nat),
     ({ id := "b0".data, values := 0, sparse_values := none,
        metadata := [(clientIdKey, MetaVal.s "B".data)] } : PineVec Nat Nat)]
    (fun _ => 0) 0 none 5 "A".data "B".data (by decide)).2
  exact h _ (by decide)

theorem metaLookup_append_absent {k : Str} {md : Metadata}
    (h : metaLookup k md = none) (v : MetaVal) :
    metaLookup k (md ++ [(k, v)]) = some v := by
  induction md with
  | nil => simp [metaLookup]
  | cons p rest ih =>
    obtain ⟨k', w⟩ := p
    rw [metaLookup] at h
    by_cases hk : k' = k
    · rw [if_pos hk] at h; exact absurd h (by simp)
    · rw [if_neg hk] at h
      show metaLookup k ((k', w) :: (rest ++ [(k, v)])) = some v
      rw [metaLookup, if_neg hk]
      exact ih h

theorem addClientId_lookup (client_id : Str) (md : Metadata) :
    metaLookup clientIdKey (VectorStore.addClientId client_id md)
      = some ((metaLookup clientIdKey md).getD (.s client_id)) := by
  rw [VectorStore.addClientId]
  cases h : metaLookup clientIdKey md with
  | some w => rw [if_pos (by simp [h])]; simp [h]
  | none => rw [if_neg (by simp [h])]; simp [metaLookup_append_absent h]

/-- C9: `VectorStore.upsert` adds the `client_id` argument to a vector's
metadata only when no `client_id` key is present; a caller-supplied
metadata `client_id` is stored unchanged (even when it differs from the
argument). -/
theorem C9_upsert_keeps_caller_client_id {V S : Type} (client_id : Str)
    (vectors : List (PineVec V S)) :
    (VectorStore.upsertFormatted client_id vectors).map
        (fun v => metaLookup clientIdKey v.metadata)
      = vectors.map (fun v =>
          some ((metaLookup clientIdKey v.metadata).getD (.s client_id))) := by
  induction vectors with
  | nil => rfl
  | cons v vs ih =>
    show (metaLookup clientIdKey (VectorStore.addClientId client_id v.metadata))
        :: (VectorStore.upsertFormatted client_id vs).map
            (fun v => metaLookup clientIdKey v.metadata)
      = some ((metaLookup clientIdKey v.metadata).getD (.s client_id))
        :: vs.map (fun v => some ((metaLookup clientIdKey v.metadata).getD (.s client_id)))
    rw [addClientId_lookup, ih]

/-! ## Ingestion: embedding-failure handling (C4) -/

/-- A 602-character extracted text that chunks into two pieces at the
default `chunk_size=500`. -/
def c4text : Str := List.replicate 300 'a' ++ "\n\n".data ++ List.replicate 300 'b'

/-- An ingestion environment whose dense-embedding call returns a single
vector regardless of how many chunks are requested (a partial batch). -/
def c4env : IngestEnv Nat Nat :=
  { fetched := some "h".data
    extract := fun _ => c4text
    embed := fun _ => [7]
    sparse := fun _ => 0 }

/-- C4 counterexample: with two chunks and a one-vector (partial) embedding
batch, `ingest_url` does not abort — it reports success and stores exactly
one vector (the `zip` truncation), contradicting the claim that a partial
batch aborts the run with nothing stored. -/
theorem C4_counterexample_partial_batch_stored :
    (recursive_chunk_text c4text 500 50
        = .ok [List.replicate 300 'a', List.replicate 300 'b'])
      ∧ (ingest_url c4env "u".data "c".data).success = true
      ∧ (ingest_url c4env "u".data "c".data).upserted.length = 1 := by
  refine ⟨by rfl, by rfl, by rfl⟩

/-- C4 (amended): `ingest_url` aborts with a failure result and stores
nothing only when the dense-embedding batch is empty; when the batch is
non-empty but shorter than the chunk list it proceeds, stores one vector per
`zip(chunks, embeddings)` pair (the minimum of the two lengths), and reports
success. -/
theorem C4_embedding_abort_amended {V S : Type} (env : IngestEnv V S)
    (url client_id html : Str) (hf : env.fetched = some html)
    (hx : env.extract html ≠ []) (chunks : List Str)
    (hc : recursive_chunk_text (env.extract html) 500 50 = .ok chunks) :
    (env.embed chunks = [] →
        ingest_url env url client_id
          = ⟨false, "Unable to generate embeddings".data, [], none, none⟩)
      ∧ (env.embed chunks ≠ [] →
          (ingest_url env url client_id).success = true
            ∧ (ingest_url env url client_id).upserted.length
                = min chunks.length (env.embed chunks).length) := by
  rw [ingest_url, hf]
  simp only [if_neg hx, hc]
  constructor
  · intro hemb
    rw [hemb]
    simp
  · intro hemb
    rw [if_neg (by simpa using hemb)]
    refine ⟨rfl, ?_⟩
    show ((List.zip chunks (env.embed chunks)).enum.map _).length = _
    rw [List.length_map, List.enum_length, List.length_zip]

/-- Witness for C4 (amended) at the concrete partial-batch environment. -/
theorem C4_embedding_abort_amended_witness :
    (ingest_url c4env "u".data "c".data).success = true
      ∧ (ingest_url c4env "u".data "c".data).upserted.length
          = min ([List.replicate 300 'a', List.replicate 300 'b'] : List Str).length
              (c4env.embed [List.replicate 300 'a', List.replicate 300 'b']).length :=
  (C4_embedding_abort_amended c4env "u".data "c".data "h".data rfl (by decide)
    [List.replicate 300 'a', List.replicate 300 'b'] (by rfl)).2 (by decide)

/-! ## Session-table lemmas -/

theorem getSession?_setSession_self (sid : Str) (f : SessionRec → SessionRec)
    (ss : List (Str × SessionRec)) :
    getSession? (setSession sid f ss) sid = (getSession? ss sid).map f := by
  induction ss with
  | nil => rfl
  | cons p rest ih =>
    obtain ⟨k, v⟩ := p
    rw [setSession]
    by_cases hk : k = sid
    · rw [if_pos hk, getSession?, if_pos hk, getSession?, if_pos hk]; rfl
    · rw [if_neg hk, getSession?, if_neg hk, getSession?, if_neg hk]; exact ih

theorem getSession?_setSession_ne {sid sid' : Str} (h : sid' ≠ sid)
    (f : SessionRec → SessionRec) (ss : List (Str × SessionRec)) :
    getSession? (setSession sid f ss) sid' = getSession? ss sid' := by
  induction ss with
  | nil => rfl
  | cons p rest ih =>
    obtain ⟨k, v⟩ := p
    rw [setSession]
    by_cases hk : k = sid
    · have hk' : k ≠ sid' := fun hh => h (hk ▸ hh).symm
      rw [if_pos hk, getSession?, if_neg hk', getSession?, if_neg hk']; exact ih
    · by_cases hk' : k = sid'
      · rw [if_neg hk, getSession?, if_pos hk', getSession?, if_pos hk']
      · rw [if_neg hk, getSession?, if_neg hk', getSession?, if_neg hk']; exact ih

theorem getSession?_append_none {ss : List (Str × SessionRec)} {sid : Str}
    (h : getSession? ss sid = none) (k : Str) (v : SessionRec) :
    getSession? (ss ++ [(k, v)]) sid = if k = sid then some v else none := by
  induction ss with
  | nil => rfl
  | cons p rest ih =>
    obtain ⟨k', w⟩ := p
    rw [getSession?] at h
    by_cases hk : k' = sid
    · rw [if_pos hk] at h; exact absurd h (by simp)
    · rw [if_neg hk] at h
      show getSession? ((k', w) :: (rest ++ [(k, v)])) sid = _
      rw [getSession?, if_neg hk]
      exact ih h

theorem getSession?_append_some {ss : List (Str × SessionRec)} {sid : Str}
    {s : SessionRec} (h : getSession? ss sid = some s) (k : Str) (v : SessionRec) :
    getSession? (ss ++ [(k, v)]) sid = some s := by
  induction ss with
  | nil => simp [getSession?] at h
  | cons p rest ih =>
    obtain ⟨k', w⟩ := p
    rw [getSession?] at h
    by_cases hk : k' = sid
    · rw [if_pos hk] at h
      show getSession? ((k', w) :: (rest ++ [(k, v)])) sid = _
      rw [getSession?, if_pos hk]
      exact h
    · rw [if_neg hk] at h
      show getSession? ((k', w) :: (rest ++ [(k, v)])) sid = _
      rw [getSession?, if_neg hk]
      exact ih h

theorem autoNotes_inj {a b : Str} (h : autoNotes a = autoNotes b) : a = b :=
  List.append_cancel_left h

/-! ## chatCommit characterisation -/

theorem chatCommit_captured (st : AppState) (req : ChatRequest) :
    capturedIn (chatCommit st req).1 req.session_id
      = (capturedIn st req.session_id || (extract_email req.message).isSome) := by
  simp only [chatCommit]
  cases hs : getSession? st.sessions req.session_id with
  | none =>
    cases he : extract_email req.message with
    | none =>
      simp [capturedIn, getSession?_setSession_self, getSession?_append_none hs, hs]
    | some e =>
      simp [capturedIn, getSession?_setSession_self, getSession?_append_none hs, hs]
  | some s =>
    cases he : extract_email req.message with
    | none =>
      simp [capturedIn, getSession?_setSession_self, hs]
    | some e =>
      cases hp : s.email_provided with
      | true =>
        simp [hp, capturedIn, getSession?_setSession_self, hs]
      | false =>
        simp [hp, capturedIn, getSession?_setSession_self, hs]

theorem chatCommit_provided (st : AppState) (req : ChatRequest) :
    (chatCommit st req).2.1
      = (capturedIn st req.session_id || (extract_email req.message).isSome) := by
  simp only [chatCommit]
  cases hs : getSession? st.sessions req.session_id with
  | none =>
    cases he : extract_email req.message with
    | none => simp [capturedIn, hs]
    | some e => simp [capturedIn, hs]
  | some s =>
    cases he : extract_email req.message with
    | none => simp [capturedIn, hs]
    | some e =>
      cases hp : s.email_provided with
      | true => simp [hp, capturedIn, hs]
      | false => simp [hp, capturedIn, hs]

theorem chatCommit_turn (st : AppState) (req : ChatRequest) :
    turnOf (chatCommit st req).1 req.session_id = turnOf st req.session_id + 1 := by
  simp only [chatCommit]
  cases hs : getSession? st.sessions req.session_id with
  | none =>
    cases he : extract_email req.message with
    | none =>
      simp [turnOf, getSession?_setSession_self, getSession?_append_none hs, hs]
    | some e =>
      simp [turnOf, getSession?_setSession_self, getSession?_append_none hs, hs]
  | some s =>
    cases he : extract_email req.message with
    | none =>
      simp [turnOf, getSession?_setSession_self, hs]
    | some e =>
      cases hp : s.email_provided with
      | true => simp [hp, turnOf, getSession?_setSession_self, hs]
      | false => simp [hp, turnOf, getSession?_setSession_self, hs]

theorem chatCommit_leads (st : AppState) (req : ChatRequest) :
    (chatCommit st req).1.leads = st.leads ++
      (if capturedIn st req.session_id = false
          ∧ (extract_email req.message).isSome = true then
        [⟨leadName req.message, (extract_email req.message).getD [],
          "new".data, autoNotes req.session_id⟩]
      else []) := by
  simp only [chatCommit]
  cases hs : getSession? st.sessions req.session_id with
  | none =>
    cases he : extract_email req.message with
    | none => simp [capturedIn, hs]
    | some e => simp [capturedIn, hs]
  | some s =>
    cases he : extract_email req.message with
    | none => simp [capturedIn, hs]
    | some e =>
      cases hp : s.email_provided with
      | true => simp [hp, capturedIn, hs]
      | false => simp [hp, capturedIn, hs]

theorem chatCommit_messages (st : AppState) (req : ChatRequest) :
    (chatCommit st req).1.messages
      = st.messages ++ [⟨req.session_id, "user".data, req.message⟩] := by
  simp only [chatCommit]
  cases hs : getSession? st.sessions req.session_id with
  | none =>
    cases he : extract_email req.message with
    | none => simp
    | some e => simp
  | some s =>
    cases he : extract_email req.message with
    | none => simp
    | some e =>
      cases hp : s.email_provided with
      | true => simp [hp]
      | false => simp [hp]

theorem chatCommit_sessions_ne (st : AppState) (req : ChatRequest) {sid : Str}
    (h : sid ≠ req.session_id) :
    getSession? (chatCommit st req).1.sessions sid = getSession? st.sessions sid := by
  simp only [chatCommit]
  cases hs : getSession? st.sessions req.session_id with
  | none =>
    have happ : getSession? (st.sessions
        ++ [(req.session_id, ⟨req.client_id, false, 0⟩)]) sid
        = getSession? st.sessions sid := by
      cases hsid : getSession? st.sessions sid with
      | none => rw [getSession?_append_none hsid, if_neg (fun hh => h hh.symm)]
      | some s => rw [getSession?_append_some hsid]
    cases he : extract_email req.message with
    | none => simp [getSession?_setSession_ne h, happ]
    | some e => simp [getSession?_setSession_ne h, happ]
  | some s =>
    cases he : extract_email req.message with
    | none => simp [getSession?_setSession_ne h]
    | some e =>
      cases hp : s.email_provided with
      | true => simp [hp, getSession?_setSession_ne h]
      | false => simp [hp, getSession?_setSession_ne h]

/-! ## chat-level lemmas -/

theorem chat_fst_empty (st : AppState) (req : ChatRequest) (env : ChatEnv)
    (h : req.message = []) : (chat st req env).1 = st := by
  simp [chat, h]

theorem chat_fst_state (st : AppState) (req : ChatRequest) (env : ChatEnv)
    (h : req.message ≠ []) :
    (chat st req env).1.sessions = (chatCommit st req).1.sessions
      ∧ (chat st req env).1.leads = (chatCommit st req).1.leads := by
  simp only [chat, if_neg h]
  by_cases hemb : env.embeddings.isEmpty = true
  · simp [hemb]
  · simp only [Bool.not_eq_true] at hemb
    cases hc : env.completion with
    | error e => simp [hemb, hc]
    | ok r => simp [hemb, hc]

theorem chat_instruction_spec (st : AppState) (req : ChatRequest) (env : ChatEnv) :
    (chat st req env).2.sentInstruction = none
    ∨ (chat st req env).2.sentInstruction
        = some (email_status_instruction
            (capturedIn st req.session_id || (extract_email req.message).isSome)) := by
  by_cases h : req.message = []
  · left; simp [chat, h]
  · simp only [chat, if_neg h]
    by_cases hemb : env.embeddings.isEmpty = true
    · left; simp [hemb]
    · right
      simp only [Bool.not_eq_true] at hemb
      cases hc : env.completion with
      | error e => simp [hemb, hc, chatCommit_provided]
      | ok r => simp [hemb, hc, chatCommit_provided]

theorem chat_capture_dichotomy (st : AppState) (req : ChatRequest) (env : ChatEnv)
    (sid : Str) :
    (autoLeadCount (chat st req env).1 sid = autoLeadCount st sid
      ∧ capturedIn (chat st req env).1 sid = capturedIn st sid)
    ∨ (capturedIn st sid = false ∧ capturedIn (chat st req env).1 sid = true
        ∧ autoLeadCount (chat st req env).1 sid = autoLeadCount st sid + 1) := by
  by_cases hmsg : req.message = []
  · left
    rw [chat_fst_empty st req env hmsg]
    exact ⟨rfl, rfl⟩
  · have hstate := chat_fst_state st req env hmsg
    have hcap : capturedIn (chat st req env).1 sid
        = capturedIn (chatCommit st req).1 sid := by
      rw [capturedIn, capturedIn, hstate.1]
    have hlead : autoLeadCount (chat st req env).1 sid
        = autoLeadCount (chatCommit st req).1 sid := by
      rw [autoLeadCount, autoLeadCount, hstate.2]
    rw [hcap, hlead]
    by_cases hsid : sid = req.session_id
    · subst hsid
      rw [chatCommit_captured]
      by_cases hpre : capturedIn st req.session_id = true
      · left
        rw [hpre]
        refine ⟨?_, by simp⟩
        simp only [autoLeadCount]
        rw [chatCommit_leads, if_neg (by simp [hpre])]
        simp
      · simp only [Bool.not_eq_true] at hpre
        cases he : (extract_email req.message).isSome with
        | false =>
          left
          constructor
          · simp only [autoLeadCount]
            rw [chatCommit_leads, if_neg (by simp [he])]
            simp
          · simp [hpre]
        | true =>
          right
          refine ⟨hpre, by simp [he], ?_⟩
          simp only [autoLeadCount]
          rw [chatCommit_leads, if_pos ⟨hpre, he⟩]
          simp [List.countP_append, List.countP_cons]
    · left
      have hnotes : autoNotes req.session_id ≠ autoNotes sid :=
        fun hh => hsid (autoNotes_inj hh).symm
      constructor
      · simp only [autoLeadCount]
        rw [chatCommit_leads]
        by_cases hcond : capturedIn st req.session_id = false
            ∧ (extract_email req.message).isSome = true
        · rw [if_pos hcond]
          simp [List.countP_append, List.countP_cons, hnotes]
        · rw [if_neg hcond]
          simp
      · rw [capturedIn, capturedIn, chatCommit_sessions_ne st req hsid]

theorem chat_captured_mono {st : AppState} {req : ChatRequest} {env : ChatEnv}
    {sid : Str} (h : capturedIn st sid = true) :
    capturedIn (chat st req env).1 sid = true := by
  rcases chat_capture_dichotomy st req env sid with ⟨_, hc⟩ | ⟨_, hc, _⟩
  · rw [hc]; exact h
  · exact hc

/-- C5: over any sequence of chat requests, a session's `email_provided`
flag never reverts from true to false (so it transitions `false → true` at
most once), and once it is true the email-observation trigger creates no
further lead for that session; from an uncaptured state at most one lead is
auto-created. -/
theorem C5_email_capture_once (st : AppState) (trace : List (ChatRequest × ChatEnv))
    (sid : Str) :
    (capturedIn st sid = true →
      capturedIn (runChat st trace) sid = true
        ∧ autoLeadCount (runChat st trace) sid = autoLeadCount st sid)
    ∧ autoLeadCount (runChat st trace) sid
        ≤ autoLeadCount st sid + (if capturedIn st sid = true then 0 else 1) := by
  induction trace generalizing st with
  | nil => simp [runChat]
  | cons p rest ih =>
    obtain ⟨r, e⟩ := p
    rw [runChat]
    rcases chat_capture_dichotomy st r e sid with ⟨hl, hc⟩ | ⟨hpre, hc, hl⟩
    · constructor
      · intro hst
        have h1 := (ih (chat st r e).1).1 (by rw [hc]; exact hst)
        exact ⟨h1.1, by rw [h1.2, hl]⟩
      · have h2 := (ih (chat st r e).1).2
        rw [hl, hc] at h2
        exact h2
    · constructor
      · intro hst
        rw [hst] at hpre
        exact absurd hpre (by simp)
      · have h1 := (ih (chat st r e).1).1 hc
        rw [h1.2, hl, hpre]
        simp

/-- C6: once a session is in EMAIL_CAPTURED, the email-status instruction
block placed in the system prompt is never the solicitation directive again
— both on the very turn whose processing captured the email (first
conjunct: the post-state is captured) and on every later request of any
trace started from a captured state (second conjunct). -/
theorem C6_no_email_solicitation_after_capture :
    (∀ st req env, capturedIn (chat st req env).1 req.session_id = true →
      (chat st req env).2.sentInstruction ≠ some askInstruction)
    ∧ ∀ st trace sid, capturedIn st sid = true →
        ∀ pr ∈ chatOutputs st trace, pr.1.session_id = sid →
          pr.2.sentInstruction ≠ some askInstruction := by
  have hstep : ∀ st req env, capturedIn (chat st req env).1 req.session_id = true →
      (chat st req env).2.sentInstruction ≠ some askInstruction := by
    intro st req env hpost
    rcases chat_instruction_spec st req env with hnone | hinstr
    · rw [hnone]; simp
    · rw [hinstr]
      by_cases hmsg : req.message = []
      · have : (chat st req env).2.sentInstruction = none := by simp [chat, hmsg]
        rw [hinstr] at this
        exact absurd this (by simp)
      · have hcap : capturedIn (chat st req env).1 req.session_id
            = (capturedIn st req.session_id || (extract_email req.message).isSome) := by
          rw [capturedIn, capturedIn, (chat_fst_state st req env hmsg).1,
            ← capturedIn, ← capturedIn, chatCommit_captured]
        rw [hcap] at hpost
        rw [hpost]
        intro hcontra
        have : providedInstruction = askInstruction := by
          simpa [email_status_instruction] using hcontra
        exact absurd this (by decide)
  refine ⟨hstep, ?_⟩
  have htrace : ∀ trace st sid, capturedIn st sid = true →
      ∀ pr ∈ chatOutputs st trace, pr.1.session_id = sid →
        pr.2.sentInstruction ≠ some askInstruction := by
    intro trace
    induction trace with
    | nil =>
      intro st sid hcap pr hpr
      simp [chatOutputs] at hpr
    | cons p rest ih =>
      intro st sid hcap pr hpr hsid
      obtain ⟨r, e⟩ := p
      rw [chatOutputs] at hpr
      rcases List.mem_cons.mp hpr with hhead | htail
      · subst hhead
        apply hstep st r e
        apply chat_captured_mono
        rw [hsid]
        exact hcap
      · exact ih (chat st r e).1 sid (chat_captured_mono hcap) pr htail hsid
  exact fun st trace => htrace trace st

/-- C8: when the completion call fails (and the request got that far:
non-empty message, non-empty embedding batch), the handler returns the
server error, and the state is exactly the already-committed state — the
turn-count increment, the email-flag transition, the auto-created lead and
the stored user message all remain committed; no assistant message is
appended and nothing is rolled back. -/
theorem C8_completion_failure_keeps_commits (st : AppState) (req : ChatRequest)
    (env : ChatEnv) (err : Str) (hmsg : req.message ≠ [])
    (hemb : env.embeddings.isEmpty = false) (hcomp : env.completion = .error err) :
    (chat st req env).2.outcome
        = .serverError ("Error processing request: ".data ++ err)
    ∧ (chat st req env).1 = (chatCommit st req).1
    ∧ turnOf (chat st req env).1 req.session_id = turnOf st req.session_id + 1
    ∧ capturedIn (chat st req env).1 req.session_id
        = (capturedIn st req.session_id || (extract_email req.message).isSome)
    ∧ (chat st req env).1.messages
        = st.messages ++ [⟨req.session_id, "user".data, req.message⟩] := by
  have hchat : chat st req env
      = ((chatCommit st req).1,
        ⟨.serverError ("Error processing request: ".data ++ err),
          some (email_status_instruction (chatCommit st req).2.1)⟩) := by
    simp [chat, if_neg hmsg, hemb, hcomp]
  rw [hchat]
  exact ⟨rfl, rfl, chatCommit_turn st req, chatCommit_captured st req,
    chatCommit_messages st req⟩

/-! ## Email extraction and the auto-lead name (C10) -/

theorem charSplit_ne_nil (c : Char) (xs : Str) : charSplit c xs ≠ [] := by
  cases xs with
  | nil => simp [charSplit]
  | cons x xs =>
    rw [charSplit]
    by_cases h : (x == c) = true
    · rw [if_pos h]; simp
    · rw [if_neg h]
      cases hs : charSplit c xs with
      | nil => simp
      | cons a t => simp

theorem charSplit_headD (c : Char) (xs : Str) :
    (charSplit c xs).headD [] = xs.takeWhile (fun a => !(a == c)) := by
  induction xs with
  | nil => rfl
  | cons x xs ih =>
    rw [charSplit]
    by_cases h : (x == c) = true
    · rw [if_pos h]
      simp [List.takeWhile_cons, h]
    · rw [if_neg h]
      cases hs : charSplit c xs with
      | nil => exact absurd hs (charSplit_ne_nil c xs)
      | cons a t =>
        have ha : a = xs.takeWhile (fun b => !(b == c)) := by
          rw [← ih, hs]; rfl
        simp only [Bool.not_eq_true] at h
        simp [List.takeWhile_cons, h, ha]

theorem tryMatch_mem_at {prev : Option Char} {s e : Str}
    (h : tryMatch prev s = some e) : '@' ∈ s := by
  simp only [tryMatch] at h
  by_cases hb : boundaryB prev s.head? = true
  · rw [if_pos hb] at h
    by_cases hl : s.takeWhile localChar = []
    · rw [if_pos hl] at h
      exact absurd h (by simp)
    · rw [if_neg hl] at h
      split at h
      · rename_i rest heq
        have hmem : '@' ∈ s.drop (s.takeWhile localChar).length := by
          rw [heq]
          exact List.mem_cons_self ..
        exact List.mem_of_mem_drop hmem
      · exact absurd h (by simp)
  · rw [if_neg hb] at h
    exact absurd h (by simp)

theorem findFrom_mem_at {e : Str} : ∀ {prev : Option Char} {s : Str},
    findFrom prev s = some e → '@' ∈ s := by
  intro prev s
  induction s generalizing prev with
  | nil =>
    intro h
    rw [findFrom] at h
    exact tryMatch_mem_at h
  | cons c rest ih =>
    intro h
    rw [findFrom] at h
    cases htm : tryMatch prev (c :: rest) with
    | some m =>
      exact tryMatch_mem_at htm
    | none =>
      rw [htm] at h
      exact List.mem_cons_of_mem c (ih h)

theorem extract_email_contains_at {msg e : Str} (h : extract_email msg = some e) :
    msg.contains '@' = true := by
  have hm : '@' ∈ msg := findFrom_mem_at h
  simpa using hm

/-- C10: when a lead is auto-created from a chat message containing an
email, its `name` is the whole message's segment before the first `@`
(`message.split('@')[0]`, i.e. not just the address's local part), its
`email` is the (leftmost) extracted address, and the `"Unknown"` fallback
of the name expression cannot fire here because an extracted email
guarantees the message contains `@`. -/
theorem C10_autolead_name_full_message_head (st : AppState) (req : ChatRequest)
    (env : ChatEnv) (e : Str) (hmsg : req.message ≠ [])
    (he : extract_email req.message = some e)
    (hpre : capturedIn st req.session_id = false) :
    (chat st req env).1.leads = st.leads ++
        [⟨req.message.takeWhile (fun a => !(a == '@')), e, "new".data,
          autoNotes req.session_id⟩]
    ∧ req.message.contains '@' = true := by
  have hat := extract_email_contains_at he
  refine ⟨?_, hat⟩
  rw [(chat_fst_state st req env hmsg).2, chatCommit_leads,
    if_pos ⟨hpre, by rw [he]; rfl⟩, he]
  rw [leadName, if_pos hat, charSplit_headD]
  rfl

/-! ## Concrete chat fixtures for witnesses -/

def wmsg : Str := "My email is jane@acme.com, what is the price?".data

def wreq : ChatRequest := ⟨wmsg, "s1".data, "c1".data⟩

def wenvOk : ChatEnv := ⟨[[1]], [], .ok "Thanks".data⟩

def wenvErr : ChatEnv := ⟨[[1]], [], .error "boom".data⟩

def wst0 : AppState := ⟨[], [], []⟩

def wstCap : AppState :=
  ⟨[("s1".data, ⟨"c1".data, true, 3⟩)],
   [⟨"J".data, "j@x.co".data, "new".data, autoNotes "s1".data⟩], []⟩

/-- Witness for C5: a captured session stays captured and gains no lead. -/
theorem C5_email_capture_once_witness :
    capturedIn wstCap "s1".data = true
    ∧ capturedIn (runChat wstCap [(wreq, wenvOk)]) "s1".data = true
    ∧ autoLeadCount (runChat wstCap [(wreq, wenvOk)]) "s1".data
        = autoLeadCount wstCap "s1".data := by
  have h := (C5_email_capture_once wstCap [(wreq, wenvOk)] "s1".data).1 (by decide)
  exact ⟨by decide, h.1, h.2⟩

/-- Witness for C6 at a captured session receiving another email message. -/
theorem C6_no_email_solicitation_after_capture_witness :
    (chat wstCap wreq wenvOk).2.sentInstruction ≠ some askInstruction :=
  C6_no_email_solicitation_after_capture.1 wstCap wreq wenvOk (by decide)

/-- Witness for C8: a failed completion still leaves the turn increment
committed. -/
theorem C8_completion_failure_keeps_commits_witness :
    (chat wst0 wreq wenvErr).2.outcome
        = .serverError ("Error processing request: ".data ++ "boom".data)
    ∧ turnOf (chat wst0 wreq wenvErr).1 "s1".data = turnOf wst0 "s1".data + 1 := by
  have h := C8_completion_failure_keeps_commits wst0 wreq wenvErr "boom".data
    (by decide) (by decide) rfl
  exact ⟨h.1, h.2.2.1⟩

/-- Witness for C10: the auto-created lead's name is the whole message up
to the first `@` (not the address's local part `jane`). -/
theorem C10_autolead_name_full_message_head_witness :
    (chat wst0 wreq wenvOk).1.leads
      = wst0.leads ++ [⟨"My email is jane".data, "jane@acme.com".data,
          "new".data, autoNotes "s1".data⟩] :=
  (C10_autolead_name_full_message_head wst0 wreq wenvOk
    "jane@acme.com".data (by decide) (by rfl) (by decide)).1
